import Mathlib

set_option autoImplicit false

namespace JPDB

/-- Dynamic Python/JSON value as it appears in the script's per-record
dictionaries (`JPDB2Anki.py`).  A missing dictionary key and a JSON `null`
both surface as Python `None` via `dict.get`, modelled by `vnone`. -/
inductive Val where
  | vnone : Val
  | vint (n : Int) : Val
  | vstr (s : String) : Val
  | vbool (b : Bool) : Val
  | vlist (xs : List Val) : Val

mutual

/-- Structural equality of values (Python `==` on the JSON value domain). -/
def Val.beq : Val → Val → Bool
  | .vnone, .vnone => true
  | .vint n, .vint m => n == m
  | .vstr s, .vstr t => s == t
  | .vbool x, .vbool y => x == y
  | .vlist xs, .vlist ys => Val.beqList xs ys
  | _, _ => false

/-- Elementwise equality of value lists. -/
def Val.beqList : List Val → List Val → Bool
  | [], [] => true
  | x :: xs, y :: ys => Val.beq x y && Val.beqList xs ys
  | _, _ => false

end

mutual

theorem Val.beq_iff : ∀ (a b : Val), Val.beq a b = true ↔ a = b
  | .vnone, .vnone => by simp [Val.beq]
  | .vnone, .vint _ => by simp [Val.beq]
  | .vnone, .vstr _ => by simp [Val.beq]
  | .vnone, .vbool _ => by simp [Val.beq]
  | .vnone, .vlist _ => by simp [Val.beq]
  | .vint _, .vnone => by simp [Val.beq]
  | .vint n, .vint m => by simp [Val.beq]
  | .vint _, .vstr _ => by simp [Val.beq]
  | .vint _, .vbool _ => by simp [Val.beq]
  | .vint _, .vlist _ => by simp [Val.beq]
  | .vstr _, .vnone => by simp [Val.beq]
  | .vstr _, .vint _ => by simp [Val.beq]
  | .vstr s, .vstr t => by simp [Val.beq]
  | .vstr _, .vbool _ => by simp [Val.beq]
  | .vstr _, .vlist _ => by simp [Val.beq]
  | .vbool _, .vnone => by simp [Val.beq]
  | .vbool _, .vint _ => by simp [Val.beq]
  | .vbool _, .vstr _ => by simp [Val.beq]
  | .vbool x, .vbool y => by simp [Val.beq]
  | .vbool _, .vlist _ => by simp [Val.beq]
  | .vlist _, .vnone => by simp [Val.beq]
  | .vlist _, .vint _ => by simp [Val.beq]
  | .vlist _, .vstr _ => by simp [Val.beq]
  | .vlist _, .vbool _ => by simp [Val.beq]
  | .vlist xs, .vlist ys => by simp [Val.beq, Val.beqList_iff xs ys]

theorem Val.beqList_iff : ∀ (xs ys : List Val), Val.beqList xs ys = true ↔ xs = ys
  | [], [] => by simp [Val.beqList]
  | [], _ :: _ => by simp [Val.beqList]
  | _ :: _, [] => by simp [Val.beqList]
  | x :: xs, y :: ys => by
      simp [Val.beqList, Val.beq_iff x y, Val.beqList_iff xs ys]

end

instance : DecidableEq Val := fun a b => decidable_of_iff _ (Val.beq_iff a b)

/-- Python truthiness of a value (used by the script's `x or default` idiom). -/
def pyFalsy : Val → Bool
  | .vnone => true
  | .vint n => n == 0
  | .vstr s => s == ""
  | .vbool b => !b
  | .vlist xs => xs.isEmpty

/-- Python `repr` of a value (list rendering used only inside nested lists). -/
def pyRepr : Val → String
  | .vnone => "None"
  | .vint n => toString n
  | .vstr s => "'" ++ s ++ "'"
  | .vbool true => "True"
  | .vbool false => "False"
  | .vlist xs => "[" ++ String.intercalate ", " (xs.attach.map (fun x => pyRepr x.1)) ++ "]"
decreasing_by
  have h1 : sizeOf x.1 < sizeOf xs := List.sizeOf_lt_of_mem x.2
  simp only [Val.vlist.sizeOf_spec]
  omega

/-- Python `str` of a value: identity on strings, `repr` otherwise. -/
def pyStr : Val → String
  | .vstr s => s
  | v => pyRepr v

/-- Model of Python `int(x)` wrapped in the script's `try ... except` blocks:
`some n` when the conversion succeeds, `Option.none` when it raises
(`int(None)`, `int` of a list, or an unparseable string). -/
def toIntOpt : Val → Option Int
  | .vnone => Option.none
  | .vint n => some n
  | .vstr s => s.trim.toInt?
  | .vbool b => some (if b then 1 else 0)
  | .vlist _ => Option.none

/-- A per-record dictionary as consumed by `apply_filters` and
`export_anki_csv`: one field per key the script ever reads with `item.get`.
A key the script never wrote is `vnone` (Python `dict.get` returns `None`). -/
structure Item where
  vid : Val
  sid : Val
  occurrences : Val
  spelling : Val
  reading : Val
  frequency_rank : Val
  meanings : Val
  card_level : Val
  card_state : Val
  due_at : Val
deriving DecidableEq

/-- The `options` dictionary produced by `ask_mode_and_options`: by the time
`apply_filters` runs, `min_occurrences` and `max_results` are Python ints,
the three ceilings are ints or `None`, and the two include flags are bools. -/
structure FilterOptions where
  min_occurrences : Int
  max_days_until_due : Option Int
  max_card_level : Option Int
  include_banished : Bool
  include_never_forget : Bool
  max_frequency_rank : Option Int
  max_results : Int
deriving DecidableEq

/-- Rule 1 of `apply_filters` (occurrence floor): `continue` exactly when the
occurrence value converts to an int below `min_occurrences`; `None` or an
unconvertible value passes. -/
def rejectByOcc (o : FilterOptions) (item : Item) : Bool :=
  match toIntOpt item.occurrences with
  | some n => n < o.min_occurrences
  | Option.none => false

/-- Rule 2 of `apply_filters` (due-date ceiling): only evaluated when
`max_days_until_due` is set; a missing `due_at` is replaced by `now_ts`, an
unconvertible one triggers `continue`, and otherwise the record is dropped
when the due timestamp exceeds `now_ts + max_days * 86400`.  `dueAtInt` is
the `due_at_int` computation of the loop body. -/
def dueAtInt (now_ts : Int) (due_at : Val) : Option Int :=
  match due_at with
  | .vnone => some now_ts
  | v => toIntOpt v

/-- Rule 2 of `apply_filters`, see `dueAtInt`. -/
def rejectByDue (o : FilterOptions) (now_ts : Int) (item : Item) : Bool :=
  match o.max_days_until_due with
  | Option.none => false
  | some max_days =>
    match dueAtInt now_ts item.due_at with
    | Option.none => true
    | some due_at_int => due_at_int > now_ts + max_days * 86400

/-- Rule 3 of `apply_filters` (card-level ceiling): only evaluated when
`max_card_level` is set; `None` or an unconvertible level passes, a converted
level above the ceiling is dropped. -/
def rejectByCardLevel (o : FilterOptions) (item : Item) : Bool :=
  match o.max_card_level with
  | Option.none => false
  | some mcl =>
    match toIntOpt item.card_level with
    | Option.none => false
    | some cl => cl > mcl

/-- The `state_list` computed by `apply_filters` from `item.get("card_state")`:
a falsy value becomes `[]` (the `or []` default), a list is mapped through
Python `str`, a (truthy) string becomes a singleton, and any other value
yields the empty list (no `isinstance` branch matches). -/
def stateList (states : Val) : List String :=
  match (if pyFalsy states then Val.vlist [] else states) with
  | .vlist xs => xs.map pyStr
  | .vstr t => [t]
  | _ => []

/-- Rule 4 of `apply_filters` (state-tag exclusions). -/
def rejectByState (o : FilterOptions) (item : Item) : Bool :=
  let sl := stateList item.card_state
  ((sl.contains "suspended" || sl.contains "blacklisted" || sl.contains "banished")
      && !o.include_banished)
    || (sl.contains "never-forget" && !o.include_never_forget)

/-- Rule 5 of `apply_filters` (frequency ceiling): only evaluated when
`max_frequency_rank` is set; a `None` or unconvertible rank is dropped, as is
a converted rank above the ceiling. -/
def rejectByFreq (o : FilterOptions) (item : Item) : Bool :=
  match o.max_frequency_rank with
  | Option.none => false
  | some mf =>
    match toIntOpt item.frequency_rank with
    | Option.none => true
    | some fv => fv > mf

/-- A record survives the per-item body of the `apply_filters` loop exactly
when none of the five `continue` rules fires. -/
def keepItem (o : FilterOptions) (now_ts : Int) (item : Item) : Bool :=
  !rejectByOcc o item && !rejectByDue o now_ts item && !rejectByCardLevel o item
    && !rejectByState o item && !rejectByFreq o item

/-- The `apply_filters` loop: `count` is `len(filtered)` so far; after
appending an item the loop breaks when `max_results` is truthy (nonzero) and
the new length has reached it. -/
def applyFiltersGo (o : FilterOptions) (now_ts : Int) : List Item → Nat → List Item
  | [], _ => []
  | item :: rest, count =>
    if keepItem o now_ts item then
      if o.max_results ≠ 0 ∧ ((count + 1 : Int) ≥ o.max_results) then [item]
      else item :: applyFiltersGo o now_ts rest (count + 1)
    else applyFiltersGo o now_ts rest count

/-- `apply_filters(parsed_vocab, options)` with the wall clock `now_ts`
(`int(time.time())`) passed explicitly. -/
def apply_filters (parsed_vocab : List Item) (o : FilterOptions) (now_ts : Int) : List Item :=
  if parsed_vocab.isEmpty then [] else applyFiltersGo o now_ts parsed_vocab 0

/-- One element of the list built by `get_deck_vocabulary`:
`{"vid": ..., "sid": ..., "occurrences": ...}`. -/
structure Entry where
  vid : Val
  sid : Val
  occurrences : Val
deriving DecidableEq

/-- Python `dict` assignment `m[k] = v`: replace the binding in place if the
key exists, append it otherwise. -/
def dictSet (m : List (Val × Val)) (k v : Val) : List (Val × Val) :=
  match m with
  | [] => [(k, v)]
  | p :: rest => if p.1 = k then (k, v) :: rest else p :: dictSet rest k v

/-- Python `m.get(k, d)`. -/
def dictGet (m : List (Val × Val)) (k d : Val) : Val :=
  match m.find? (fun p => p.1 == k) with
  | some p => p.2
  | Option.none => d

/-- One iteration of the first loop of `lookup_vocabulary`: entries missing
`vid` or `sid` are skipped; the rest record their occurrence count in
`occ_map` (keyed by `vid` alone) and their `[vid, sid]` pair in
`lookup_pairs`. -/
def buildStep (acc : List (Val × Val) × List (Val × Val)) (e : Entry) :
    List (Val × Val) × List (Val × Val) :=
  if e.vid = Val.vnone ∨ e.sid = Val.vnone then acc
  else (dictSet acc.1 e.vid e.occurrences, acc.2 ++ [(e.vid, e.sid)])

/-- The `(occ_map, lookup_pairs)` state after the first loop of
`lookup_vocabulary`. -/
def buildLookup (entries : List Entry) : List (Val × Val) × List (Val × Val) :=
  entries.foldl buildStep ([], [])

/-- The entries that survive the `vid is None or sid is None` skip. -/
def keptEntries (entries : List Entry) : List Entry :=
  entries.filter (fun e => !(e.vid = Val.vnone ∨ e.sid = Val.vnone))

/-- The batch slices `lookup_pairs[i:i+batch_size]` taken by the lookup loop
`for i in range(0, len(lookup_pairs), batch_size)`: Python's `range` steps
through `j * batch_size` for `j < ceil(len/batch_size)` and the slice
`l[i:i+bs]` is `take bs (drop i l)`.  A zero batch size is out of scope
(Python `range` would raise a `ValueError`). -/
def chunks {α : Type} (bs : Nat) (l : List α) : List (List α) :=
  if bs = 0 then []
  else (List.range ((l.length + bs - 1) / bs)).map (fun j => (l.drop (j * bs)).take bs)

/-- Positional access `row[idx] if idx < len(row) else None`. -/
def rowGet (row : List Val) (idx : Nat) : Val :=
  (row.get? idx).getD Val.vnone

/-- Decoding of one non-null response row at position `row_idx` of a batch:
fields are read positionally against
`["spelling","reading","frequency_rank","meanings","card_level","card_state"]`,
`vid` is re-joined from the batch pair at the same position, and
`occurrences` is `occ_map.get(vid, 0)`.  Keys the lookup never writes
(`sid`, `due_at`) stay absent. -/
def decodeItem (occm : List (Val × Val)) (batch : List (Val × Val)) (row_idx : Nat)
    (row : List Val) : Item :=
  let vid := match batch.get? row_idx with
             | some p => p.1
             | Option.none => Val.vnone
  { spelling := rowGet row 0
    reading := rowGet row 1
    frequency_rank := rowGet row 2
    meanings := rowGet row 3
    card_level := rowGet row 4
    card_state := rowGet row 5
    vid := vid
    sid := Val.vnone
    occurrences := dictGet occm vid (Val.vint 0)
    due_at := Val.vnone }

/-- The `for row_idx, row in enumerate(rows)` loop over one batch response:
a `None` row is skipped, any other row is decoded at its position. -/
def processBatchGo (occm : List (Val × Val)) (batch : List (Val × Val)) :
    Nat → List (Option (List Val)) → List Item
  | _, [] => []
  | i, Option.none :: rest => processBatchGo occm batch (i + 1) rest
  | i, some row :: rest => decodeItem occm batch i row :: processBatchGo occm batch (i + 1) rest

/-- Items produced from one batch and its response rows. -/
def processBatch (occm : List (Val × Val)) (batch : List (Val × Val))
    (rows : List (Option (List Val))) : List Item :=
  processBatchGo occm batch 0 rows

/-- `lookup_vocabulary(entries, api_key, batch_size)`.  The network is
abstracted by `resp`, giving the `vocabulary_info` rows returned for the
`i`-th batch (a `None` row is a not-found marker). -/
def lookup_vocabulary (entries : List Entry) (bs : Nat)
    (resp : Nat → List (Option (List Val))) : List Item :=
  let occm := (buildLookup entries).1
  let pairs := (buildLookup entries).2
  if pairs.isEmpty then []
  else ((chunks bs pairs).enum.map (fun p => processBatch occm p.2 (resp p.1))).flatten

/-- The sort key `x.get("occurrences") or 0` used by `main` before export,
on the data-model domain where an occurrence count is a nullable integer
(a falsy value gives `0`; Python would raise a `TypeError` when comparing a
non-numeric truthy key with an int, which is outside every claim's scope). -/
def occKey (item : Item) : Int :=
  match item.occurrences with
  | .vint n => n
  | .vbool b => if b then 1 else 0
  | _ => 0

/-- Stable insertion of `x` (originally earlier than the already-sorted tail)
into a descending-by-`occKey` list: `x` goes before the first element whose
key does not exceed its own, so ties keep the original order. -/
def insertByOcc (x : Item) : List Item → List Item
  | [] => [x]
  | y :: ys => if occKey y ≤ occKey x then x :: y :: ys else y :: insertByOcc x ys

/-- The stable descending sort
`filtered.sort(key=lambda x: x.get("occurrences") or 0, reverse=True)`
performed by `main` (Python's sort is stable; any stable descending sort
produces this list). -/
def sortByOccDesc : List Item → List Item
  | [] => []
  | x :: xs => insertByOcc x (sortByOccDesc xs)

/-- The `Meaning` cell: `item.get("meanings") or []`, joined with `"; "` when
list-shaped, stringified otherwise. -/
def meaningText (m : Val) : String :=
  match (if pyFalsy m then Val.vlist [] else m) with
  | .vlist xs => String.intercalate "; " (xs.map pyStr)
  | v => pyStr v

/-- One CSV data row written by `export_anki_csv`:
`[spelling or "", reading or "", meaning_text]` (the csv writer stringifies
truthy non-string cells with `str`). -/
def csvRow (item : Item) : List String :=
  [ if pyFalsy item.spelling then "" else pyStr item.spelling
  , if pyFalsy item.reading then "" else pyStr item.reading
  , meaningText item.meanings ]

/-- The `for item in vocab_info` writing loop of `export_anki_csv`. -/
def exportRowsGo : List Item → List (List String)
  | [] => []
  | item :: rest => csvRow item :: exportRowsGo rest

/-- `export_anki_csv(vocab_info, filename)` as the sequence of rows written:
the fixed header followed by one data row per record. -/
def export_anki_csv (vocab_info : List Item) : List (List String) :=
  ["Expression", "Reading", "Meaning"] :: exportRowsGo vocab_info

/-- One `occ_map[vid] = occ` assignment of the first `lookup_vocabulary` loop. -/
def occStep (m : List (Val × Val)) (e : Entry) : List (Val × Val) :=
  dictSet m e.vid e.occurrences

/-- A deck listing with two distinct identifier pairs sharing one vocabulary
id, carrying different occurrence counts. -/
def cexEntries : List Entry :=
  [⟨Val.vint 1, Val.vint 1, Val.vint 5⟩, ⟨Val.vint 1, Val.vint 2, Val.vint 7⟩]

/-- A server response delivering one (empty) row per pair of the single batch. -/
def cexResp : Nat → List (Option (List Val)) :=
  fun i => if i = 0 then [some [], some []] else []

/-- A record whose occurrence count, when it converts to an integer at all,
is non-negative (the data-model precondition of several claims). -/
def occNonneg (item : Item) : Bool :=
  match toIntOpt item.occurrences with
  | some n => 0 ≤ n
  | Option.none => true

/-- An item with every field absent. -/
def blankItem : Item :=
  ⟨.vnone, .vnone, .vnone, .vnone, .vnone, .vnone, .vnone, .vnone, .vnone, .vnone⟩

/-- The configuration of claim C1: occurrence floor 0, every ceiling unset,
both include flags true, no result cap. -/
def identityOptions : FilterOptions :=
  ⟨0, Option.none, Option.none, true, true, Option.none, 0⟩

/-- The options of the C4 counterexample: `max_days_until_due = -1` (an
unclamped preset value), everything else permissive. -/
def dueOptsNeg : FilterOptions :=
  ⟨0, some (-1), Option.none, true, true, Option.none, 0⟩

/-- A record whose occurrence count is a nullable integer, the data-model
domain on which the export sort key `x.get("occurrences") or 0` is defined
(Python raises a `TypeError` when sorting other truthy non-numeric keys). -/
def occNullableInt (item : Item) : Bool :=
  match item.occurrences with
  | .vnone => true
  | .vint _ => true
  | _ => false

/-- A parsed JSON body as `requests`' `r.json()` can return it. -/
inductive Json where
  | jnull : Json
  | jbool (b : Bool) : Json
  | jint (n : Int) : Json
  | jstr (s : String) : Json
  | jarr (xs : List Json) : Json
  | jobj (fields : List (String × Json)) : Json

/-- `data.get("error_message") if isinstance(data, dict) and "error_message"
in data else None`: the body is `Option Json` because an unparseable response
body yields `data = None`. -/
def getErrMsg : Option Json → Option Json
  | some (Json.jobj fields) => (fields.find? (fun p => p.1 == "error_message")).map (fun p => p.2)
  | _ => Option.none

/-- The argument of each `RuntimeError` raised by `send_post`, kept
structured rather than rendered to text: `raw v` is the server-provided
`error_message` value passed through unchanged; `fixed403` stands for the
literal `"Forbidden (403) - check API key"`; `fixed400` for
`"Bad request (400)"`; `http st m` for `f"HTTP {st}"` optionally extended
with `f": {error_message}"`; `exceededRetries` for
`"Exceeded maximum retries"`. -/
inductive ErrMsg where
  | raw (v : Json) : ErrMsg
  | fixed403 : ErrMsg
  | fixed400 : ErrMsg
  | http (status : Nat) (m : Option Json) : ErrMsg
  | exceededRetries : ErrMsg

/-- What `send_post` can raise: a `RuntimeError` it builds itself, or the
re-raised `requests` exception after the final network failure. -/
inductive PyErr where
  | runtime (m : ErrMsg) : PyErr
  | requestExn : PyErr

/-- The outcome of `send_post`: the parsed JSON body on HTTP 200, or a raise. -/
inductive SendResult where
  | ok (body : Option Json) : SendResult
  | err (e : PyErr) : SendResult

/-- Observable behaviour of one `send_post` call: its outcome, how many
`requests.post` attempts it made, and the `time.sleep` durations in order. -/
structure SendTrace where
  result : SendResult
  attempts : Nat
  waits : List Int

/-- What the network does on a given attempt number: raise a
`RequestException`, or return a response with a status code, a parsed
`Retry-After` hint (`int(r.headers.get("Retry-After", 1))`) and a parsed
body (`None` when `r.json()` fails). -/
inductive AttemptOutcome where
  | exn : AttemptOutcome
  | resp (status : Nat) (retryAfter : Int) (body : Option Json) : AttemptOutcome

/-- The 403 message: server `error_message` when present, fixed text otherwise. -/
def err403 (body : Option Json) : ErrMsg :=
  match getErrMsg body with
  | some m => ErrMsg.raw m
  | Option.none => ErrMsg.fixed403

/-- The 400 message: server `error_message` when present, fixed text otherwise. -/
def err400 (body : Option Json) : ErrMsg :=
  match getErrMsg body with
  | some m => ErrMsg.raw m
  | Option.none => ErrMsg.fixed400

/-- The `while attempt < max_retries` loop of `send_post`: `a` is the current
value of `attempt`, `fuel = max_retries - a` the remaining iterations.
Attempt numbers are 1-based (`attempt += 1` opens the body).  A network
exception re-raises at the last attempt and otherwise sleeps
`backoff_base * attempt` and retries; 200 returns the body; 429 sleeps
`backoff_base * attempt + retry_after` and retries; 403, 400 and any other
status raise immediately.  Falling out of the loop raises
"Exceeded maximum retries".  `backoff` models `backoff_base` (whose only
used value is the default `1.0`) as a natural number. -/
def sendPostGo (oracle : Nat → AttemptOutcome) (maxRetries backoff : Nat) :
    Nat → Nat → SendTrace
  | a, 0 => ⟨SendResult.err (PyErr.runtime ErrMsg.exceededRetries), a, []⟩
  | a, fuel + 1 =>
    let att := a + 1
    match oracle att with
    | AttemptOutcome.exn =>
      if maxRetries ≤ att then ⟨SendResult.err PyErr.requestExn, att, []⟩
      else
        let t := sendPostGo oracle maxRetries backoff att fuel
        ⟨t.result, t.attempts, ((backoff * att : Nat) : Int) :: t.waits⟩
    | AttemptOutcome.resp status retryAfter body =>
      if status = 200 then ⟨SendResult.ok body, att, []⟩
      else if status = 429 then
        let t := sendPostGo oracle maxRetries backoff att fuel
        ⟨t.result, t.attempts, (((backoff * att : Nat) : Int) + retryAfter) :: t.waits⟩
      else if status = 403 then ⟨SendResult.err (PyErr.runtime (err403 body)), att, []⟩
      else if status = 400 then ⟨SendResult.err (PyErr.runtime (err400 body)), att, []⟩
      else ⟨SendResult.err (PyErr.runtime (ErrMsg.http status (getErrMsg body))), att, []⟩

/-- `send_post(url, headers, payload, max_retries, backoff_base)` with the
network abstracted by `oracle`. -/
def send_post (oracle : Nat → AttemptOutcome) (maxRetries backoff : Nat) : SendTrace :=
  sendPostGo oracle maxRetries backoff 0 maxRetries

/-- A network that always returns HTTP 200 with an empty-object body. -/
def okOracle : Nat → AttemptOutcome :=
  fun _ => AttemptOutcome.resp 200 1 (some (Json.jobj []))

/-- A network that always raises a request exception. -/
def exnOracle : Nat → AttemptOutcome :=
  fun _ => AttemptOutcome.exn

/-- A network that rate-limits the first attempt with `Retry-After: 7`. -/
def rlOracle : Nat → AttemptOutcome :=
  fun a => if a = 1 then AttemptOutcome.resp 429 7 Option.none
           else AttemptOutcome.resp 200 1 Option.none

theorem dictGet_nil (k d : Val) : dictGet [] k d = d := rfl

theorem dictGet_cons (p : Val × Val) (m : List (Val × Val)) (k d : Val) :
    dictGet (p :: m) k d = if p.1 = k then p.2 else dictGet m k d := by
  by_cases hp : p.1 = k
  · rw [if_pos hp]
    unfold dictGet
    rw [List.find?_cons_of_pos _ (by simp [hp])]
  · rw [if_neg hp]
    unfold dictGet
    rw [List.find?_cons_of_neg _ (by simp [hp])]

theorem dictGet_dictSet (m : List (Val × Val)) (k v k2 d : Val) :
    dictGet (dictSet m k v) k2 d = if k2 = k then v else dictGet m k2 d := by
  induction m with
  | nil =>
    rw [dictSet, dictGet_cons, dictGet_nil]
    by_cases h : k2 = k
    · rw [if_pos h, if_pos h.symm]
    · rw [if_neg h, if_neg (fun hh => h hh.symm)]
  | cons p rest ih =>
    rw [dictSet]
    by_cases hp : p.1 = k
    · rw [if_pos hp, dictGet_cons, dictGet_cons]
      by_cases h : k2 = k
      · rw [if_pos h, if_pos h.symm]
      · rw [if_neg h, if_neg (fun hh => h hh.symm), if_neg (fun hh => h (hp ▸ hh).symm)]
    · rw [if_neg hp, dictGet_cons, dictGet_cons, ih]
      by_cases hq : p.1 = k2
      · rw [if_pos hq, if_pos hq, if_neg (fun hh : k2 = k => hp (hq.trans hh))]
      · rw [if_neg hq, if_neg hq]

theorem dictGet_occFold_not_mem :
    ∀ (kept : List Entry) (m0 : List (Val × Val)) (k d : Val),
      (∀ e ∈ kept, k ≠ e.vid) →
      dictGet (kept.foldl occStep m0) k d = dictGet m0 k d := by
  intro kept
  induction kept with
  | nil => intro m0 k d _; rfl
  | cons f rest ih =>
    intro m0 k d h
    rw [List.foldl_cons, ih _ k d (fun e he => h e (List.mem_cons_of_mem f he)),
      occStep, dictGet_dictSet, if_neg (h f (List.mem_cons_self f rest))]

theorem dictGet_occFold_mem :
    ∀ (kept : List Entry) (m0 : List (Val × Val)) (e : Entry) (d : Val),
      e ∈ kept → List.Pairwise (fun e1 e2 => e1.vid ≠ e2.vid) kept →
      dictGet (kept.foldl occStep m0) e.vid d = e.occurrences := by
  intro kept
  induction kept with
  | nil => intro m0 e d hmem _; cases hmem
  | cons f rest ih =>
    intro m0 e d hmem hpw
    rw [List.foldl_cons]
    rcases List.mem_cons.mp hmem with rfl | hmem2
    · rw [dictGet_occFold_not_mem rest _ e.vid d (List.pairwise_cons.mp hpw).1,
        occStep, dictGet_dictSet, if_pos rfl]
    · exact ih _ e d hmem2 (List.pairwise_cons.mp hpw).2

theorem foldl_buildStep (entries : List Entry) :
    ∀ acc : List (Val × Val) × List (Val × Val),
      entries.foldl buildStep acc =
        ((keptEntries entries).foldl occStep acc.1,
         acc.2 ++ (keptEntries entries).map (fun e => (e.vid, e.sid))) := by
  induction entries with
  | nil => intro acc; simp [keptEntries]
  | cons e rest ih =>
    intro acc
    rw [List.foldl_cons]
    by_cases he : (e.vid = Val.vnone ∨ e.sid = Val.vnone)
    · rw [show buildStep acc e = acc from by rw [buildStep, if_pos he], ih acc,
        show keptEntries (e :: rest) = keptEntries rest from by
          simp [keptEntries, List.filter_cons, he]
          tauto]
    · rw [show buildStep acc e
            = (dictSet acc.1 e.vid e.occurrences, acc.2 ++ [(e.vid, e.sid)]) from by
          rw [buildStep, if_neg he], ih,
        show keptEntries (e :: rest) = e :: keptEntries rest from by
          simp [keptEntries, List.filter_cons, he]
          tauto]
      simp [occStep]

theorem buildLookup_occ (entries : List Entry) :
    (buildLookup entries).1 = (keptEntries entries).foldl occStep [] := by
  rw [buildLookup, foldl_buildStep]

theorem buildLookup_pairs (entries : List Entry) :
    (buildLookup entries).2 = (keptEntries entries).map (fun e => (e.vid, e.sid)) := by
  rw [buildLookup, foldl_buildStep]
  simp

theorem processBatchGo_occ (occm batch : List (Val × Val)) :
    ∀ (rows : List (Option (List Val))) (i : Nat) (item : Item),
      item ∈ processBatchGo occm batch i rows →
      item.occurrences = dictGet occm item.vid (Val.vint 0) := by
  intro rows
  induction rows with
  | nil => intro i item h; simp [processBatchGo] at h
  | cons r rest ih =>
    intro i item h
    cases r with
    | none => exact ih (i + 1) item h
    | some row =>
      rw [processBatchGo, List.mem_cons] at h
      rcases h with rfl | h2
      · rfl
      · exact ih (i + 1) item h2

theorem lookup_vocabulary_occ (entries : List Entry) (bs : Nat)
    (resp : Nat → List (Option (List Val))) :
    ∀ item ∈ lookup_vocabulary entries bs resp,
      item.occurrences = dictGet (buildLookup entries).1 item.vid (Val.vint 0) := by
  intro item h
  rw [lookup_vocabulary] at h
  by_cases hp : (buildLookup entries).2.isEmpty
  · simp only [hp, if_true] at h
    cases h
  · simp only [hp, Bool.false_eq_true, if_false] at h
    rcases List.mem_flatten.mp h with ⟨sub, hsub, hitem⟩
    rcases List.mem_map.mp hsub with ⟨p, _, rfl⟩
    exact processBatchGo_occ _ _ (resp p.1) 0 item hitem

/-- C6 counterexample: the identifier PAIRS of `cexEntries` are unique, yet
the record looked up for pair `(1,1)` carries occurrence count 7 — the count
fetched for pair `(1,2)` — because `occ_map` is keyed by vocabulary id alone
and the later entry overwrote the earlier one. -/
theorem C6_counterexample :
    List.Pairwise (fun e1 e2 => ¬(e1.vid = e2.vid ∧ e1.sid = e2.sid)) cexEntries ∧
      ∃ item ∈ lookup_vocabulary cexEntries 50 cexResp,
        ∃ e ∈ keptEntries cexEntries, item.vid = e.vid ∧ item.occurrences ≠ e.occurrences := by
  decide

/-- C6 (amended): when the VOCABULARY IDS of the kept entries are unique (not
merely the id pairs), every looked-up record carries exactly the occurrence
count fetched for its vocabulary id, for every batch size and every server
response; a record whose vid matches no kept entry carries count 0. -/
theorem C6_occ_enrichment_amended
    (entries : List Entry) (bs : Nat) (resp : Nat → List (Option (List Val)))
    (huniq : List.Pairwise (fun e1 e2 => e1.vid ≠ e2.vid) (keptEntries entries)) :
    ∀ item ∈ lookup_vocabulary entries bs resp,
      (∀ e ∈ keptEntries entries, item.vid = e.vid → item.occurrences = e.occurrences) ∧
      ((∀ e ∈ keptEntries entries, item.vid ≠ e.vid) → item.occurrences = Val.vint 0) := by
  intro item hitem
  have hocc := lookup_vocabulary_occ entries bs resp item hitem
  constructor
  · intro e he hvid
    rw [hocc, buildLookup_occ, hvid]
    exact dictGet_occFold_mem (keptEntries entries) [] e (Val.vint 0) he huniq
  · intro hnone
    rw [hocc, buildLookup_occ,
      dictGet_occFold_not_mem (keptEntries entries) [] item.vid (Val.vint 0) hnone]
    rfl

/-- Witness for C6 (amended) on a two-entry listing with distinct vids. -/
theorem C6_occ_enrichment_amended_witness :
    List.Pairwise (fun e1 e2 => e1.vid ≠ e2.vid)
        (keptEntries [⟨Val.vint 3, Val.vint 4, Val.vint 9⟩, ⟨Val.vint 8, Val.vint 4, Val.vnone⟩]) ∧
      ∀ item ∈ lookup_vocabulary
          [⟨Val.vint 3, Val.vint 4, Val.vint 9⟩, ⟨Val.vint 8, Val.vint 4, Val.vnone⟩] 50 cexResp,
        (∀ e ∈ keptEntries
            [⟨Val.vint 3, Val.vint 4, Val.vint 9⟩, ⟨Val.vint 8, Val.vint 4, Val.vnone⟩],
          item.vid = e.vid → item.occurrences = e.occurrences) ∧
        ((∀ e ∈ keptEntries
            [⟨Val.vint 3, Val.vint 4, Val.vint 9⟩, ⟨Val.vint 8, Val.vint 4, Val.vnone⟩],
          item.vid ≠ e.vid) → item.occurrences = Val.vint 0) :=
  ⟨by decide, C6_occ_enrichment_amended _ 50 cexResp (by decide)⟩

theorem chunks_nil {α : Type} (bs : Nat) : chunks bs ([] : List α) = [] := by
  rw [chunks]
  by_cases h : bs = 0
  · rw [if_pos h]
  · rw [if_neg h, List.length_nil,
      show (0 + bs - 1) / bs = 0 from Nat.div_eq_of_lt (by omega)]
    rfl

theorem chunks_cons {α : Type} (bs : Nat) (hbs : 0 < bs) (l : List α) (hl : l ≠ []) :
    chunks bs l = l.take bs :: chunks bs (l.drop bs) := by
  have hlen : 1 ≤ l.length := List.length_pos.mpr hl
  rw [chunks, chunks, if_neg (by omega), if_neg (by omega)]
  have h1 : l.length + bs - 1 = (l.length - 1) + bs := by omega
  rw [h1, Nat.add_div_right _ hbs]
  have h2 : ((l.drop bs).length + bs - 1) / bs = (l.length - 1) / bs := by
    rw [List.length_drop]
    by_cases hc : l.length ≤ bs
    · rw [show l.length - bs = 0 from by omega,
        Nat.div_eq_of_lt (by omega), Nat.div_eq_of_lt (by omega)]
    · rw [show l.length - bs + bs - 1 = l.length - 1 from by omega]
  rw [h2, List.range_succ_eq_map, List.map_cons, List.map_map, Nat.zero_mul, List.drop_zero]
  congr 1
  apply List.map_congr_left
  intro j _
  simp only [Function.comp_apply, List.drop_drop]
  rw [show Nat.succ j * bs = bs + j * bs from by rw [Nat.succ_mul, Nat.add_comm]]

theorem chunks_flatten {α : Type} (bs : Nat) (hbs : 0 < bs) :
    ∀ (l : List α), (chunks bs l).flatten = l := by
  suffices H : ∀ (n : Nat) (l : List α), l.length ≤ n → (chunks bs l).flatten = l by
    intro l; exact H l.length l le_rfl
  intro n
  induction n with
  | zero =>
    intro l hl
    have hz : l = [] := List.length_eq_zero.mp (by omega)
    rw [hz, chunks_nil]
    rfl
  | succ n ih =>
    intro l hl
    cases l with
    | nil => rw [chunks_nil]; rfl
    | cons a t =>
      rw [chunks_cons bs hbs _ (by simp), List.flatten_cons,
        ih ((a :: t).drop bs) (by
          simp only [List.length_drop, List.length_cons] at hl ⊢
          omega),
        List.take_append_drop]

theorem chunks_length_120 {α : Type} (l : List α) (hl : l.length = 120) :
    (chunks 50 l).map List.length = [50, 50, 20] := by
  rw [chunks, if_neg (by omega), hl,
    show (120 + 50 - 1) / 50 = 3 from by norm_num,
    show List.range 3 = [0, 1, 2] from rfl]
  simp [List.length_take, List.length_drop, hl]

theorem processBatchGo_eq (occm batch : List (Val × Val)) :
    ∀ (rows : List (Option (List Val))) (i : Nat),
      processBatchGo occm batch i rows
        = (List.enumFrom i rows).filterMap
            (fun p => (p.2).map (decodeItem occm batch p.1)) := by
  intro rows
  induction rows with
  | nil => intro i; rfl
  | cons r rest ih =>
    intro i
    cases r with
    | none => simp [processBatchGo, List.enumFrom, List.filterMap_cons, ih]
    | some row => simp [processBatchGo, List.enumFrom, List.filterMap_cons, ih]

theorem processBatch_eq (occm batch : List (Val × Val)) (rows : List (Option (List Val))) :
    processBatch occm batch rows
      = rows.enum.filterMap (fun p => (p.2).map (decodeItem occm batch p.1)) := by
  rw [processBatch, processBatchGo_eq]
  rfl

theorem enumFrom_fst_ge {α : Type} :
    ∀ (l : List α) (i : Nat) (p : Nat × α), p ∈ List.enumFrom i l → i ≤ p.1 := by
  intro l
  induction l with
  | nil => intro i p h; cases h
  | cons a t ih =>
    intro i p h
    rw [List.enumFrom, List.mem_cons] at h
    rcases h with rfl | h2
    · exact le_rfl
    · exact Nat.le_of_succ_le (ih (i + 1) p h2)

theorem processBatchGo_set_none (occm batch : List (Val × Val)) :
    ∀ (rows : List (Option (List Val))) (i k : Nat),
      processBatchGo occm batch i (rows.set k Option.none)
        = ((List.enumFrom i rows).filter (fun p => p.1 != i + k)).filterMap
            (fun p => (p.2).map (decodeItem occm batch p.1)) := by
  intro rows
  induction rows with
  | nil => intro i k; rfl
  | cons r rest ih =>
    intro i k
    cases k with
    | zero =>
      have hall : (List.enumFrom (i + 1) rest).filter (fun p => p.1 != i + 0)
          = List.enumFrom (i + 1) rest := by
        apply List.filter_eq_self.mpr
        intro p hp
        have := enumFrom_fst_ge rest (i + 1) p hp
        simp only [bne_iff_ne, ne_eq]
        omega
      rw [List.set_cons_zero, List.enumFrom, List.filter_cons,
        show ((i, r).1 != i + 0) = false from by simp,
        if_neg (show ¬(false = true) from by simp), hall,
        show processBatchGo occm batch i (Option.none :: rest)
            = processBatchGo occm batch (i + 1) rest from rfl,
        processBatchGo_eq]
    | succ k2 =>
      have hne : ((i, r).1 != i + (k2 + 1)) = true := by
        simp only [bne_iff_ne, ne_eq]
        omega
      have hidx : i + 1 + k2 = i + (k2 + 1) := by omega
      rw [List.set_cons_succ, List.enumFrom, List.filter_cons, hne, if_pos rfl]
      cases r with
      | none =>
        rw [show processBatchGo occm batch i (Option.none :: rest.set k2 Option.none)
              = processBatchGo occm batch (i + 1) (rest.set k2 Option.none) from rfl,
          ih (i + 1) k2, hidx, List.filterMap_cons]
        rfl
      | some row =>
        rw [show processBatchGo occm batch i (some row :: rest.set k2 Option.none)
              = decodeItem occm batch i row
                  :: processBatchGo occm batch (i + 1) (rest.set k2 Option.none) from rfl,
          ih (i + 1) k2, hidx, List.filterMap_cons]
        rfl

/-- C7: identifier pairs missing a component are dropped before batching (the
batched pairs are exactly the kept entries' `[vid, sid]` pairs in order); the
batches are consecutive fixed-size slices whose concatenation is the whole
pair list, and 120 pairs at batch size 50 give batch sizes 50, 50, 20; a
batch response decodes each non-null row at its own position (a null row is
skipped without shifting the field decoding or the vid re-join of any other
row, which stay keyed to the row's original index). -/
theorem C7_batch_lookup :
    (∀ entries : List Entry,
        (buildLookup entries).2 = (keptEntries entries).map (fun e => (e.vid, e.sid))) ∧
    (∀ (bs : Nat) (l : List (Val × Val)), 0 < bs → (chunks bs l).flatten = l) ∧
    (∀ l : List (Val × Val), l.length = 120 → (chunks 50 l).map List.length = [50, 50, 20]) ∧
    (∀ (occm batch : List (Val × Val)) (rows : List (Option (List Val))),
        processBatch occm batch rows
          = rows.enum.filterMap (fun p => (p.2).map (decodeItem occm batch p.1))) ∧
    (∀ (occm batch : List (Val × Val)) (rows : List (Option (List Val))) (k : Nat),
        processBatch occm batch (rows.set k Option.none)
          = (rows.enum.filter (fun p => p.1 != k)).filterMap
              (fun p => (p.2).map (decodeItem occm batch p.1))) := by
  refine ⟨buildLookup_pairs, fun bs l h => chunks_flatten bs h l, chunks_length_120,
    processBatch_eq, ?_⟩
  intro occm batch rows k
  rw [processBatch, processBatchGo_set_none occm batch rows 0 k,
    show (0 : Nat) + k = k from by omega]
  rfl

/-- Witness for C7 on 120 concrete pairs and a concrete nulled row. -/
theorem C7_batch_lookup_witness :
    (((List.range 120).map (fun j => ((Val.vint j, Val.vint j) : Val × Val))).length = 120 ∧
        (chunks 50 ((List.range 120).map (fun j => ((Val.vint j, Val.vint j) : Val × Val)))).map
            List.length = [50, 50, 20]) ∧
      processBatch [] [(Val.vint 1, Val.vint 1)] ([some [], some []].set 0 Option.none)
        = ([some [], some []].enum.filter (fun p => p.1 != 0)).filterMap
            (fun p => (p.2).map (decodeItem [] [(Val.vint 1, Val.vint 1)] p.1)) :=
  ⟨⟨by decide, C7_batch_lookup.2.2.1 _ (by decide)⟩,
   C7_batch_lookup.2.2.2.2 [] [(Val.vint 1, Val.vint 1)] [some [], some []] 0⟩

theorem applyFiltersGo_nocap (o : FilterOptions) (now_ts : Int) (h0 : o.max_results = 0) :
    ∀ (l : List Item) (c : Nat),
      applyFiltersGo o now_ts l c = l.filter (keepItem o now_ts) := by
  intro l
  induction l with
  | nil => intro c; rfl
  | cons it rest ih =>
    intro c
    by_cases hk : keepItem o now_ts it = true
    · simp [applyFiltersGo, hk, h0, ih]
    · simp [applyFiltersGo, hk, ih, List.filter_cons]

theorem applyFiltersGo_sublist (o : FilterOptions) (now_ts : Int) :
    ∀ (l : List Item) (c : Nat), List.Sublist (applyFiltersGo o now_ts l c) l := by
  intro l
  induction l with
  | nil => intro c; simp [applyFiltersGo]
  | cons it rest ih =>
    intro c
    rw [applyFiltersGo]
    by_cases hk : keepItem o now_ts it = true
    · simp only [hk, if_true]
      by_cases hb : (o.max_results ≠ 0 ∧ ((c + 1 : Int) ≥ o.max_results))
      · rw [if_pos hb]
        exact List.Sublist.cons₂ it (List.nil_sublist rest)
      · rw [if_neg hb]
        exact List.Sublist.cons₂ it (ih (c + 1))
    · simp only [hk, if_false]
      exact List.Sublist.cons it (ih c)

/-- C1: with `min_occurrences = 0`, all optional bounds unset, both include
flags true and `max_results = 0`, the filter returns every record of an
input whose occurrence counts (when they convert to integers) are
non-negative, in order, unchanged. -/
theorem C1_filter_identity (now_ts : Int) (l : List Item)
    (hocc : ∀ item ∈ l, occNonneg item = true) :
    apply_filters l identityOptions now_ts = l := by
  have hkeep : ∀ item ∈ l, keepItem identityOptions now_ts item = true := by
    intro item hm
    have h := hocc item hm
    have h1 : rejectByOcc identityOptions item = false := by
      unfold occNonneg at h
      unfold rejectByOcc identityOptions
      rcases hcase : toIntOpt item.occurrences with _ | n
      · simp
      · simp only [hcase] at h ⊢
        simp only [decide_eq_true_eq] at h
        simp
        omega
    have h2 : rejectByDue identityOptions now_ts item = false := rfl
    have h3 : rejectByCardLevel identityOptions item = false := rfl
    have h4 : rejectByState identityOptions item = false := by
      simp [rejectByState, identityOptions]
    have h5 : rejectByFreq identityOptions item = false := rfl
    simp [keepItem, h1, h2, h3, h4, h5]
  cases l with
  | nil => rfl
  | cons it rest =>
    rw [apply_filters]
    simp only [List.isEmpty_cons, if_false, Bool.false_eq_true]
    rw [applyFiltersGo_nocap identityOptions now_ts rfl]
    exact List.filter_eq_self.mpr hkeep

/-- Witness for C1 at a concrete one-record input. -/
theorem C1_filter_identity_witness :
    (∀ item ∈ [{ blankItem with occurrences := Val.vint 3 }], occNonneg item = true) ∧
      apply_filters [{ blankItem with occurrences := Val.vint 3 }] identityOptions 0 =
        [{ blankItem with occurrences := Val.vint 3 }] :=
  ⟨by decide, C1_filter_identity 0 _ (by decide)⟩

/-- C2: with a configured frequency ceiling `M`, the frequency rule drops a
record whose rank is absent or does not convert to an integer, drops a rank
above `M`, and passes a converted rank at most `M`; a rejection by this rule
excludes the record from the filter's kept set; by contrast the occurrence
and card-level rules pass absent values. -/
theorem C2_frequency_rule (o : FilterOptions) (M : Int) (item : Item) (now_ts : Int)
    (hM : o.max_frequency_rank = some M) :
    (toIntOpt item.frequency_rank = Option.none → rejectByFreq o item = true) ∧
    (∀ n, toIntOpt item.frequency_rank = some n → M < n → rejectByFreq o item = true) ∧
    (∀ n, toIntOpt item.frequency_rank = some n → n ≤ M → rejectByFreq o item = false) ∧
    (rejectByFreq o item = true → keepItem o now_ts item = false) ∧
    (∀ item2 : Item, toIntOpt item2.occurrences = Option.none → rejectByOcc o item2 = false) ∧
    (∀ item2 : Item, toIntOpt item2.card_level = Option.none → rejectByCardLevel o item2 = false) := by
  refine ⟨?_, ?_, ?_, ?_, ?_, ?_⟩
  · intro h; simp [rejectByFreq, hM, h]
  · intro n hn hlt; simp [rejectByFreq, hM, hn]; omega
  · intro n hn hle; simp [rejectByFreq, hM, hn]; omega
  · intro h; simp [keepItem, h]
  · intro item2 h; simp [rejectByOcc, h]
  · intro item2 h
    unfold rejectByCardLevel
    rcases o.max_card_level with _ | mcl
    · rfl
    · simp [h]

/-- Witness for C2: ceiling 500, a record with absent rank is rejected and
one with rank 499 is not. -/
theorem C2_frequency_rule_witness :
    (⟨0, Option.none, Option.none, false, false, some 500, 0⟩ : FilterOptions).max_frequency_rank
        = some 500 ∧
      rejectByFreq ⟨0, Option.none, Option.none, false, false, some 500, 0⟩ blankItem = true ∧
      rejectByFreq ⟨0, Option.none, Option.none, false, false, some 500, 0⟩
        { blankItem with frequency_rank := Val.vint 499 } = false := by
  refine ⟨rfl, ?_, ?_⟩
  · exact (C2_frequency_rule _ 500 blankItem 0 rfl).1 (by decide)
  · exact (C2_frequency_rule _ 500 { blankItem with frequency_rank := Val.vint 499 } 0 rfl).2.2.1
      499 (by decide) (by decide)

theorem keepItem_erase_cap (o : FilterOptions) (now_ts : Int) (item : Item) :
    keepItem { o with max_results := 0 } now_ts item = keepItem o now_ts item := rfl

theorem cap_cond_iff (o : FilterOptions) (K : Nat) (hk : o.max_results = (K : Int)) (c : Nat) :
    (o.max_results ≠ 0 ∧ ((c + 1 : Int) ≥ o.max_results)) ↔ (K ≠ 0 ∧ K ≤ c + 1) := by
  rw [hk]
  omega

theorem applyFiltersGo_cap_take (o : FilterOptions) (now_ts : Int) (K : Nat)
    (_hK : 0 < K) (hk : o.max_results = (K : Int)) :
    ∀ (l : List Item) (c : Nat), c < K →
      applyFiltersGo o now_ts l c = (l.filter (keepItem o now_ts)).take (K - c) := by
  intro l
  induction l with
  | nil => intro c _; simp [applyFiltersGo]
  | cons it rest ih =>
    intro c hc
    rw [applyFiltersGo]
    by_cases hkeep : keepItem o now_ts it = true
    · rw [if_pos hkeep, List.filter_cons_of_pos hkeep]
      by_cases hb : K ≤ c + 1
      · rw [if_pos ((cap_cond_iff o K hk c).mpr ⟨by omega, hb⟩)]
        have : K - c = 1 := by omega
        rw [this]
        simp
      · rw [if_neg (fun h => hb ((cap_cond_iff o K hk c).mp h).2)]
        rw [ih (c + 1) (by omega)]
        have : K - c = (K - (c + 1)) + 1 := by omega
        rw [this, List.take_succ_cons]
    · rw [if_neg (fun h => hkeep h), List.filter_cons_of_neg (by simp [hkeep])]
      exact ih c hc

theorem applyFiltersGo_cap_append (o : FilterOptions) (now_ts : Int) (K : Nat)
    (_hK : 0 < K) (hk : o.max_results = (K : Int)) :
    ∀ (l1 l2 : List Item) (c : Nat), c < K →
      (applyFiltersGo o now_ts l1 c).length = K - c →
      applyFiltersGo o now_ts (l1 ++ l2) c = applyFiltersGo o now_ts l1 c := by
  intro l1 l2
  induction l1 with
  | nil =>
    intro c hc hlen
    simp [applyFiltersGo] at hlen
    omega
  | cons it rest ih =>
    intro c hc hlen
    by_cases hkeep : keepItem o now_ts it = true
    · by_cases hb : K ≤ c + 1
      · have hcond := (cap_cond_iff o K hk c).mpr ⟨by omega, hb⟩
        rw [List.cons_append, applyFiltersGo, if_pos hkeep, if_pos hcond,
            applyFiltersGo, if_pos hkeep, if_pos hcond]
      · have hcond : ¬(o.max_results ≠ 0 ∧ ((c + 1 : Int) ≥ o.max_results)) :=
          fun h => hb ((cap_cond_iff o K hk c).mp h).2
        rw [applyFiltersGo, if_pos hkeep, if_neg hcond, List.length_cons] at hlen
        rw [List.cons_append, applyFiltersGo, if_pos hkeep, if_neg hcond,
            applyFiltersGo, if_pos hkeep, if_neg hcond,
            ih (c + 1) (by omega) (by omega)]
    · rw [applyFiltersGo, if_neg hkeep] at hlen
      rw [List.cons_append, applyFiltersGo, if_neg hkeep,
          applyFiltersGo, if_neg hkeep]
      exact ih c hc hlen

/-- C3: with `max_results = k > 0` the filter output is the first `k` of the
uncapped output (hence `min(k, passing)` records in original relative
order); once the cap is reached inside a prefix, any records after it are
irrelevant to the result (early termination); with `max_results = 0` the
filter is a plain predicate filter (no cap). -/
theorem C3_result_cap :
    (∀ (o : FilterOptions) (now_ts k : Int) (l : List Item),
        o.max_results = k → 0 < k →
        apply_filters l o now_ts
          = (apply_filters l { o with max_results := 0 } now_ts).take k.toNat) ∧
    (∀ (o : FilterOptions) (now_ts k : Int) (l1 l2 : List Item),
        o.max_results = k → 0 < k →
        (apply_filters l1 o now_ts).length = k.toNat →
        apply_filters (l1 ++ l2) o now_ts = apply_filters l1 o now_ts) ∧
    (∀ (o : FilterOptions) (now_ts : Int) (l : List Item),
        o.max_results = 0 →
        apply_filters l o now_ts = l.filter (keepItem o now_ts)) := by
  have nocap : ∀ (o : FilterOptions) (now_ts : Int) (l : List Item),
      o.max_results = 0 → apply_filters l o now_ts = l.filter (keepItem o now_ts) := by
    intro o now_ts l h0
    cases l with
    | nil => rfl
    | cons it rest =>
      rw [apply_filters]
      simp only [List.isEmpty_cons, Bool.false_eq_true, if_false]
      exact applyFiltersGo_nocap o now_ts h0 (it :: rest) 0
  refine ⟨?_, ?_, nocap⟩
  · intro o now_ts k l hk hpos
    have hK : o.max_results = ((k.toNat : Nat) : Int) := by omega
    have hfil : apply_filters l { o with max_results := 0 } now_ts
        = l.filter (keepItem o now_ts) := by
      rw [nocap { o with max_results := 0 } now_ts l rfl]
      apply List.filter_congr
      intro x _
      exact keepItem_erase_cap o now_ts x
    rw [hfil]
    cases l with
    | nil => simp [apply_filters]
    | cons it rest =>
      rw [apply_filters]
      simp only [List.isEmpty_cons, Bool.false_eq_true, if_false]
      rw [applyFiltersGo_cap_take o now_ts k.toNat (by omega) hK (it :: rest) 0 (by omega)]
      simp
  · intro o now_ts k l1 l2 hk hpos hlen
    have hK : o.max_results = ((k.toNat : Nat) : Int) := by omega
    cases l1 with
    | nil =>
      rw [apply_filters] at hlen
      simp at hlen
      omega
    | cons it rest =>
      rw [apply_filters] at hlen ⊢
      simp only [List.isEmpty_cons, Bool.false_eq_true, if_false] at hlen ⊢
      rw [apply_filters]
      simp only [List.cons_append, List.isEmpty_cons, Bool.false_eq_true, if_false]
      rw [← List.cons_append]
      exact applyFiltersGo_cap_append o now_ts k.toNat (by omega) hK (it :: rest) l2 0
        (by omega) (by simpa using hlen)

/-- Witness for C3 at `max_results = 2` over five otherwise-passing records. -/
theorem C3_result_cap_witness :
    apply_filters
        [{ blankItem with occurrences := Val.vint 1 }, { blankItem with occurrences := Val.vint 2 },
         { blankItem with occurrences := Val.vint 3 }, { blankItem with occurrences := Val.vint 4 },
         { blankItem with occurrences := Val.vint 5 }]
        ⟨0, Option.none, Option.none, true, true, Option.none, 2⟩ 0
      = (apply_filters
          [{ blankItem with occurrences := Val.vint 1 }, { blankItem with occurrences := Val.vint 2 },
           { blankItem with occurrences := Val.vint 3 }, { blankItem with occurrences := Val.vint 4 },
           { blankItem with occurrences := Val.vint 5 }]
          ⟨0, Option.none, Option.none, true, true, Option.none, 0⟩ 0).take 2 :=
  C3_result_cap.1 ⟨0, Option.none, Option.none, true, true, Option.none, 2⟩ 0 2 _ rfl (by decide)

/-- C4 counterexample: with `max_days_until_due` configured as `-1`, a record
with an absent due timestamp is rejected by the due rule, contradicting the
claim that an absent due timestamp always passes it. -/
theorem C4_counterexample :
    dueOptsNeg.max_days_until_due = some (-1) ∧ blankItem.due_at = Val.vnone ∧
      rejectByDue dueOptsNeg 0 blankItem = true :=
  ⟨rfl, rfl, by decide⟩

/-- C4 (amended): with `max_days_until_due = D` the rule uses the ceiling
`now + D*86400`; an absent due timestamp is treated as due `now` (hence it
passes whenever `0 ≤ D`, though not for a negative `D`); a present but
unconvertible timestamp is rejected; a converted timestamp is rejected
exactly when it exceeds the ceiling; a due rejection excludes the record;
with no configured value the rule rejects nothing. -/
theorem C4_due_rule_amended :
    (∀ (o : FilterOptions) (D now_ts : Int) (item : Item),
        o.max_days_until_due = some D →
        (item.due_at = Val.vnone →
          (rejectByDue o now_ts item = true ↔ now_ts > now_ts + D * 86400)) ∧
        (item.due_at = Val.vnone → 0 ≤ D → rejectByDue o now_ts item = false) ∧
        (item.due_at ≠ Val.vnone → toIntOpt item.due_at = Option.none →
          rejectByDue o now_ts item = true) ∧
        (∀ t, item.due_at ≠ Val.vnone → toIntOpt item.due_at = some t →
          (rejectByDue o now_ts item = true ↔ t > now_ts + D * 86400)) ∧
        (rejectByDue o now_ts item = true → keepItem o now_ts item = false)) ∧
    (∀ (o : FilterOptions) (now_ts : Int) (item : Item),
        o.max_days_until_due = Option.none → rejectByDue o now_ts item = false) := by
  constructor
  · intro o D now_ts item hD
    have hneGen : ∀ v : Val, v ≠ Val.vnone → dueAtInt now_ts v = toIntOpt v := by
      intro v hv
      cases v with
      | vnone => exact absurd rfl hv
      | vint n => rfl
      | vstr s => rfl
      | vbool b => rfl
      | vlist xs => rfl
    have hne : item.due_at ≠ Val.vnone → dueAtInt now_ts item.due_at = toIntOpt item.due_at :=
      hneGen item.due_at
    refine ⟨?_, ?_, ?_, ?_, ?_⟩
    · intro habs
      simp [rejectByDue, hD, dueAtInt, habs]
    · intro habs hDpos
      simp [rejectByDue, hD, dueAtInt, habs]
      omega
    · intro h hparse
      simp [rejectByDue, hD, hne h, hparse]
    · intro t h hparse
      simp [rejectByDue, hD, hne h, hparse]
    · intro h
      simp [keepItem, h]
  · intro o now_ts item hnone
    simp [rejectByDue, hnone]

/-- Witness for C4 (amended): ceiling one day from `now = 1000`; a record due
in two days is rejected, a record with no due timestamp passes. -/
theorem C4_due_rule_amended_witness :
    rejectByDue ⟨0, some 1, Option.none, true, true, Option.none, 0⟩ 1000
        { blankItem with due_at := Val.vint (1000 + 172800) } = true ∧
      rejectByDue ⟨0, some 1, Option.none, true, true, Option.none, 0⟩ 1000 blankItem = false :=
  ⟨((C4_due_rule_amended.1 ⟨0, some 1, Option.none, true, true, Option.none, 0⟩ 1 1000
        { blankItem with due_at := Val.vint (1000 + 172800) } rfl).2.2.2.1
      (1000 + 172800) (by decide) (by decide)).mpr (by decide),
   (C4_due_rule_amended.1 ⟨0, some 1, Option.none, true, true, Option.none, 0⟩ 1 1000
        blankItem rfl).2.1 rfl (by decide)⟩

/-- C5 counterexample: a non-list, non-string state value (the integer 5) is
treated as the EMPTY tag set by the code, not as a one-element tag set
containing that value as the claim states. -/
theorem C5_counterexample :
    stateList (Val.vint 5) = [] ∧ stateList (Val.vint 5) ≠ [pyStr (Val.vint 5)] := by
  constructor
  · rfl
  · intro h
    rw [show stateList (Val.vint 5) = [] from rfl] at h
    exact absurd h (by simp)

/-- C5 (amended): the state rule rejects exactly when a banished-family tag
is present and include-banished is false, or the never-forget tag is present
and include-never-forget is false; a rejection excludes the record.  Tag
sets: a list state is mapped elementwise through `str`; a truthy string
state is a one-element tag set; every other non-list state value (any
non-string scalar, and the falsy empty string) contributes NO tags. -/
theorem C5_state_rule_amended :
    (∀ (o : FilterOptions) (item : Item) (now_ts : Int),
        (rejectByState o item = true ↔
          ((("suspended" ∈ stateList item.card_state ∨
              "blacklisted" ∈ stateList item.card_state ∨
              "banished" ∈ stateList item.card_state) ∧ o.include_banished = false) ∨
            ("never-forget" ∈ stateList item.card_state ∧ o.include_never_forget = false))) ∧
        (rejectByState o item = true → keepItem o now_ts item = false)) ∧
    (∀ s : String, s ≠ "" → stateList (Val.vstr s) = [s]) ∧
    (stateList (Val.vstr "") = []) ∧
    (∀ xs : List Val, stateList (Val.vlist xs) = xs.map pyStr) ∧
    (∀ v : Val, (∀ xs, v ≠ Val.vlist xs) → (∀ s, v ≠ Val.vstr s) → stateList v = []) := by
  refine ⟨?_, ?_, rfl, ?_, ?_⟩
  · intro o item now_ts
    constructor
    · simp [rejectByState, List.elem_iff]
      tauto
    · intro h
      simp [keepItem, h]
  · intro s hs
    simp [stateList, pyFalsy, hs]
  · intro xs
    by_cases hxs : xs.isEmpty
    · rw [List.isEmpty_iff.mp hxs]
      rfl
    · simp [stateList, pyFalsy, hxs]
  · intro v hlist hstr
    cases v with
    | vnone => rfl
    | vint n =>
      unfold stateList
      by_cases hf : pyFalsy (Val.vint n) = true
      · rw [if_pos hf]; rfl
      · rw [if_neg hf]
    | vstr s => exact absurd rfl (hstr s)
    | vbool b =>
      unfold stateList
      by_cases hf : pyFalsy (Val.vbool b) = true
      · rw [if_pos hf]; rfl
      · rw [if_neg hf]
    | vlist xs => exact absurd rfl (hlist xs)

/-- Witness for C5 (amended): `state=["suspended"]` is excluded when
include-banished is false and kept by the rule when it is true. -/
theorem C5_state_rule_amended_witness :
    rejectByState ⟨0, Option.none, Option.none, false, false, Option.none, 0⟩
        { blankItem with card_state := Val.vlist [Val.vstr "suspended"] } = true ∧
      rejectByState ⟨0, Option.none, Option.none, true, true, Option.none, 0⟩
        { blankItem with card_state := Val.vlist [Val.vstr "suspended"] } = false ∧
      stateList (Val.vstr "never-forget") = ["never-forget"] :=
  ⟨((C5_state_rule_amended.1 ⟨0, Option.none, Option.none, false, false, Option.none, 0⟩
        { blankItem with card_state := Val.vlist [Val.vstr "suspended"] } 0).1).mpr
      (Or.inl ⟨Or.inl (by simp [stateList, pyFalsy, pyStr]), rfl⟩),
   by
    have h := (C5_state_rule_amended.1 ⟨0, Option.none, Option.none, true, true, Option.none, 0⟩
        { blankItem with card_state := Val.vlist [Val.vstr "suspended"] } 0).1
    rcases hb : rejectByState ⟨0, Option.none, Option.none, true, true, Option.none, 0⟩
        { blankItem with card_state := Val.vlist [Val.vstr "suspended"] } with _ | _
    · rfl
    · rcases h.mp hb with ⟨_, hfalse⟩ | ⟨_, hfalse⟩ <;> exact absurd hfalse (by simp),
   C5_state_rule_amended.2.1 "never-forget" (by decide)⟩

theorem insertByOcc_perm (x : Item) (l : List Item) :
    List.Perm (insertByOcc x l) (x :: l) := by
  induction l with
  | nil => exact List.Perm.refl _
  | cons y ys ih =>
    rw [insertByOcc]
    by_cases h : occKey y ≤ occKey x
    · rw [if_pos h]
    · rw [if_neg h]
      exact (List.Perm.cons y ih).trans (List.Perm.swap x y ys)

theorem sortByOccDesc_perm (l : List Item) : List.Perm (sortByOccDesc l) l := by
  induction l with
  | nil => exact List.Perm.refl _
  | cons x xs ih =>
    rw [sortByOccDesc]
    exact (insertByOcc_perm x (sortByOccDesc xs)).trans (List.Perm.cons x ih)

theorem insertByOcc_pairwise (x : Item) (l : List Item)
    (h : List.Pairwise (fun a b => occKey b ≤ occKey a) l) :
    List.Pairwise (fun a b => occKey b ≤ occKey a) (insertByOcc x l) := by
  induction l with
  | nil => simp [insertByOcc]
  | cons y ys ih =>
    rw [insertByOcc]
    by_cases hxy : occKey y ≤ occKey x
    · rw [if_pos hxy]
      refine List.Pairwise.cons ?_ h
      intro b hb
      rcases List.mem_cons.mp hb with rfl | hb2
      · exact hxy
      · exact le_trans ((List.pairwise_cons.mp h).1 b hb2) hxy
    · rw [if_neg hxy]
      refine List.Pairwise.cons ?_ (ih (List.pairwise_cons.mp h).2)
      intro b hb
      have hb2 := (insertByOcc_perm x ys).mem_iff.mp hb
      rcases List.mem_cons.mp hb2 with rfl | hb3
      · omega
      · exact (List.pairwise_cons.mp h).1 b hb3

theorem sortByOccDesc_pairwise (l : List Item) :
    List.Pairwise (fun a b => occKey b ≤ occKey a) (sortByOccDesc l) := by
  induction l with
  | nil => simp [sortByOccDesc]
  | cons x xs ih =>
    rw [sortByOccDesc]
    exact insertByOcc_pairwise x (sortByOccDesc xs) ih

theorem insertByOcc_filter_key (x : Item) (l : List Item) (c : Int) :
    (insertByOcc x l).filter (fun it => occKey it == c)
      = (x :: l).filter (fun it => occKey it == c) := by
  induction l with
  | nil => rfl
  | cons y ys ih =>
    rw [insertByOcc]
    by_cases hxy : occKey y ≤ occKey x
    · rw [if_pos hxy]
    · rw [if_neg hxy]
      by_cases hy : (occKey y == c) = true <;> by_cases hx : (occKey x == c) = true
      · exfalso
        rw [beq_iff_eq] at hy hx
        omega
      · simp [List.filter_cons, hy, hx, ih]
      · simp [List.filter_cons, hy, hx, ih]
      · simp [List.filter_cons, hy, hx, ih]

theorem sortByOccDesc_filter_key (l : List Item) (c : Int) :
    (sortByOccDesc l).filter (fun it => occKey it == c)
      = l.filter (fun it => occKey it == c) := by
  induction l with
  | nil => rfl
  | cons x xs ih =>
    rw [sortByOccDesc, insertByOcc_filter_key, List.filter_cons, List.filter_cons, ih]

theorem exportRowsGo_eq_map (l : List Item) : exportRowsGo l = l.map csvRow := by
  induction l with
  | nil => rfl
  | cons x xs ih => rw [exportRowsGo, ih, List.map_cons]

/-- C8: over records whose occurrence counts are nullable integers, the
export stage's sort is a permutation ordered by occurrence count descending
(missing count counted as 0) and stable — records with any given key keep
their filter-output order — and the serialized output is exactly the fixed
header row followed by one `csvRow` per sorted record, so its length is the
record count plus one (no record is skipped). -/
theorem C8_export (l : List Item)
    (_hocc : ∀ item ∈ l, occNullableInt item = true) :
    List.Perm (sortByOccDesc l) l ∧
    List.Pairwise (fun a b => occKey b ≤ occKey a) (sortByOccDesc l) ∧
    (∀ c : Int, (sortByOccDesc l).filter (fun it => occKey it == c)
        = l.filter (fun it => occKey it == c)) ∧
    export_anki_csv (sortByOccDesc l)
      = ["Expression", "Reading", "Meaning"] :: (sortByOccDesc l).map csvRow ∧
    (export_anki_csv (sortByOccDesc l)).length = l.length + 1 := by
  refine ⟨sortByOccDesc_perm l, sortByOccDesc_pairwise l, sortByOccDesc_filter_key l, ?_, ?_⟩
  · rw [export_anki_csv, exportRowsGo_eq_map]
  · rw [export_anki_csv, List.length_cons, exportRowsGo_eq_map, List.length_map,
      (sortByOccDesc_perm l).length_eq]

/-- Witness for C8 on a concrete three-record list with occurrence counts
10, 1, 5 (sorts to 10, 5, 1; output has 4 rows). -/
theorem C8_export_witness :
    (∀ item ∈ [{ blankItem with occurrences := Val.vint 10 },
        { blankItem with occurrences := Val.vint 1 },
        { blankItem with occurrences := Val.vint 5 }], occNullableInt item = true) ∧
      (export_anki_csv (sortByOccDesc [{ blankItem with occurrences := Val.vint 10 },
          { blankItem with occurrences := Val.vint 1 },
          { blankItem with occurrences := Val.vint 5 }])).length = 3 + 1 :=
  ⟨by decide,
   (C8_export [{ blankItem with occurrences := Val.vint 10 },
      { blankItem with occurrences := Val.vint 1 },
      { blankItem with occurrences := Val.vint 5 }] (by decide)).2.2.2.2⟩

/-- C10: the filter's output is always a sublist of its input — every output
record is an unmodified input record and relative order is preserved. -/
theorem C10_output_sublist (l : List Item) (o : FilterOptions) (now_ts : Int) :
    List.Sublist (apply_filters l o now_ts) l := by
  rw [apply_filters]
  by_cases he : l.isEmpty
  · simp [he]
  · simp only [he, if_false, Bool.false_eq_true]
    exact applyFiltersGo_sublist o now_ts l 0

theorem sendPostGo_all_exn (oracle : Nat → AttemptOutcome) (mr b : Nat)
    (hor : ∀ a, 1 ≤ a → a ≤ mr → oracle a = AttemptOutcome.exn) :
    ∀ (fuel a : Nat), 0 < fuel → a + fuel = mr →
      (sendPostGo oracle mr b a fuel).result = SendResult.err PyErr.requestExn ∧
        (sendPostGo oracle mr b a fuel).attempts = mr := by
  intro fuel
  induction fuel with
  | zero => intro a h0 _; omega
  | succ f ih =>
    intro a _ hsum
    rw [sendPostGo]
    simp only [hor (a + 1) (by omega) (by omega)]
    by_cases hlast : mr ≤ a + 1
    · rw [if_pos hlast]
      exact ⟨rfl, by simp; omega⟩
    · rw [if_neg hlast]
      exact ih (a + 1) (by omega) (by omega)

/-- C9: the transport returns the parsed body on a first-attempt HTTP 200;
it raises at attempt 1, never consulting the network again, on 403 and 400
(passing the server's `error_message` through when one is present, a fixed
text otherwise) and on any other non-200, non-429 status (a generic
`HTTP {status}` failure); the whole call depends only on the first attempt
whenever that attempt returns any non-429 response; on a first-attempt 429
it sleeps at least the server's `Retry-After` hint before retrying; and when
every attempt raises a network error it retries up to exactly `max_retries`
attempts and then re-raises the network exception. -/
theorem C9_transport :
    (∀ (oracle : Nat → AttemptOutcome) (mr b : Nat) (ra : Int) (body : Option Json),
        oracle 1 = AttemptOutcome.resp 200 ra body → 0 < mr →
        send_post oracle mr b = ⟨SendResult.ok body, 1, []⟩) ∧
    (∀ (oracle : Nat → AttemptOutcome) (mr b : Nat) (ra : Int) (body : Option Json),
        oracle 1 = AttemptOutcome.resp 403 ra body → 0 < mr →
        send_post oracle mr b = ⟨SendResult.err (PyErr.runtime (err403 body)), 1, []⟩) ∧
    (∀ (oracle : Nat → AttemptOutcome) (mr b : Nat) (ra : Int) (body : Option Json),
        oracle 1 = AttemptOutcome.resp 400 ra body → 0 < mr →
        send_post oracle mr b = ⟨SendResult.err (PyErr.runtime (err400 body)), 1, []⟩) ∧
    (∀ (oracle : Nat → AttemptOutcome) (mr b st : Nat) (ra : Int) (body : Option Json),
        oracle 1 = AttemptOutcome.resp st ra body → 0 < mr →
        st ≠ 200 → st ≠ 429 → st ≠ 403 → st ≠ 400 →
        send_post oracle mr b
          = ⟨SendResult.err (PyErr.runtime (ErrMsg.http st (getErrMsg body))), 1, []⟩) ∧
    (∀ (oracle oracle2 : Nat → AttemptOutcome) (mr b st : Nat) (ra : Int) (body : Option Json),
        oracle 1 = AttemptOutcome.resp st ra body → oracle2 1 = oracle 1 → st ≠ 429 →
        send_post oracle mr b = send_post oracle2 mr b) ∧
    (∀ (oracle : Nat → AttemptOutcome) (mr b : Nat) (ra : Int) (body : Option Json),
        oracle 1 = AttemptOutcome.resp 429 ra body → 0 < mr →
        ∃ w, (send_post oracle mr b).waits.head? = some w ∧ ra ≤ w) ∧
    (∀ (oracle : Nat → AttemptOutcome) (mr b : Nat), 0 < mr →
        (∀ a, 1 ≤ a → a ≤ mr → oracle a = AttemptOutcome.exn) →
        (send_post oracle mr b).result = SendResult.err PyErr.requestExn ∧
          (send_post oracle mr b).attempts = mr) := by
  refine ⟨?_, ?_, ?_, ?_, ?_, ?_, ?_⟩
  · intro oracle mr b ra body h hmr
    cases mr with
    | zero => omega
    | succ m =>
      rw [send_post, sendPostGo]
      simp [h]
  · intro oracle mr b ra body h hmr
    cases mr with
    | zero => omega
    | succ m =>
      rw [send_post, sendPostGo]
      simp [h]
  · intro oracle mr b ra body h hmr
    cases mr with
    | zero => omega
    | succ m =>
      rw [send_post, sendPostGo]
      simp [h]
  · intro oracle mr b st ra body h hmr h200 h429 h403 h400
    cases mr with
    | zero => omega
    | succ m =>
      rw [send_post, sendPostGo]
      simp [h, h200, h429, h403, h400]
  · intro oracle oracle2 mr b st ra body h1 h2 hne
    cases mr with
    | zero => rfl
    | succ m =>
      rw [send_post, send_post, sendPostGo, sendPostGo]
      simp [h1, h2, hne]
  · intro oracle mr b ra body h hmr
    cases mr with
    | zero => omega
    | succ m =>
      rw [send_post, sendPostGo]
      simp only [Nat.zero_add, h]
      refine ⟨((b * 1 : Nat) : Int) + ra, ?_, by omega⟩
      simp
  · intro oracle mr b hmr hor
    exact sendPostGo_all_exn oracle mr b hor mr 0 hmr (by omega)

/-- Witness for C9: concrete success, rate-limited and all-failing networks
with `max_retries = 3` and `backoff_base = 1`. -/
theorem C9_transport_witness :
    send_post okOracle 3 1 = ⟨SendResult.ok (some (Json.jobj [])), 1, []⟩ ∧
      (∃ w, (send_post rlOracle 3 1).waits.head? = some w ∧ (7 : Int) ≤ w) ∧
      (send_post exnOracle 3 1).result = SendResult.err PyErr.requestExn ∧
      (send_post exnOracle 3 1).attempts = 3 :=
  ⟨C9_transport.1 okOracle 3 1 1 (some (Json.jobj [])) rfl (by decide),
   C9_transport.2.2.2.2.2.1 rlOracle 3 1 7 Option.none rfl (by decide),
   C9_transport.2.2.2.2.2.2 exnOracle 3 1 (by decide) (fun a _ _ => rfl)⟩

end JPDB
